import Mathlib

/-!
Verification of the ExpiredStorage wrapper (dist/expired_storage.js).

The wrapper adds time-to-live semantics on top of a key-value backing store.
JS strings are modelled as lists of characters, the backing store as an
association list in insertion order (matching the enumeration order of the
key snapshot taken by iteration), JS numbers that the code manipulates
(epoch-second timestamps and TTLs) as integers, and fallible operations as
Option / Except values.  The current timestamp is passed explicitly as the
`now` argument, modelling the overridable `getTimestamp` seam.
-/

namespace ExpiredStorage

/-- A JS string: a list of characters. -/
abbrev Str := List Char

/-- The backing store: an association list of key-value pairs in insertion
order.  `localStorage`-like backends store string values; numbers written by
the wrapper are kept in their decimal-string form. -/
abbrev Store := List (Str × Str)

/-- Backing-store read: the value stored under `k`, or `none` (JS `null`)
when the key is absent. -/
def storeGet (k : Str) : Store → Option Str
  | [] => none
  | p :: t => if p.1 = k then some p.2 else storeGet k t

/-- Backing-store write: replace the value under `k` in place, or append a
new entry when absent. -/
def storeSet (k : Str) (v : Str) : Store → Store
  | [] => [(k, v)]
  | p :: t => if p.1 = k then (k, v) :: t else p :: storeSet k v t

/-- Backing-store removal of the entry under `k` (no error when absent). -/
def storeRemove (k : Str) : Store → Store
  | [] => []
  | p :: t => if p.1 = k then storeRemove k t else p :: storeRemove k t

/-- The keys of the backing store in enumeration order, as snapshotted by
`_iterKeys` before its callbacks run. -/
def storeKeys (s : Store) : List Str := s.map Prod.fst

/-- Test whether the second string begins with the first, the model of the
JS check `storageKey.indexOf(p) === 0`. -/
def beginsWith : Str → Str → Bool
  | [], _ => true
  | _ :: _, [] => false
  | p :: ps, c :: cs => p = c && beginsWith ps cs

/-- A decimal digit character. -/
def isDig (c : Char) : Bool := 48 ≤ c.toNat && c.toNat ≤ 57

/-- A JS whitespace character skipped by `parseInt` (space, tab, LF, VT, FF, CR). -/
def isJsSpace (c : Char) : Bool := c.toNat = 32 || (9 ≤ c.toNat && c.toNat ≤ 13)

/-- The numeric value of a run of decimal digit characters. -/
def digitsVal (ds : Str) : Nat := ds.foldl (fun a c => a * 10 + (c.toNat - 48)) 0

/-- A hexadecimal digit character. -/
def isHexDig (c : Char) : Bool :=
  isDig c || (97 ≤ c.toNat && c.toNat ≤ 102) || (65 ≤ c.toNat && c.toNat ≤ 70)

/-- The numeric value of one hexadecimal digit character. -/
def hexDigVal (c : Char) : Nat :=
  if isDig c then c.toNat - 48 else if 97 ≤ c.toNat then c.toNat - 87 else c.toNat - 55

/-- The numeric value of a run of hexadecimal digit characters. -/
def hexRunVal (ds : Str) : Nat := ds.foldl (fun a c => a * 16 + hexDigVal c) 0

/-- The unsigned part of JS `parseInt` with no radix argument: a `0x`/`0X`
prefix selects hexadecimal, otherwise the longest leading decimal digit run
is taken; no digits at all gives NaN (`none`). -/
def parseIntDigits (cs : Str) : Option Nat :=
  if cs.head? = some '0' && (cs.tail.head? = some 'x' || cs.tail.head? = some 'X') then
    let ds := cs.tail.tail.takeWhile isHexDig
    if ds.isEmpty then none else some (hexRunVal ds)
  else
    let ds := cs.takeWhile isDig
    if ds.isEmpty then none else some (digitsVal ds)

/-- JS `parseInt(string)`: skip leading whitespace, read an optional sign,
then the digit run; NaN is `none`. -/
def jsParseInt (cs : Str) : Option Int :=
  if (cs.dropWhile isJsSpace).head? = some '-' then
    (parseIntDigits (cs.dropWhile isJsSpace).tail).map (fun m : Nat => -(m : Int))
  else if (cs.dropWhile isJsSpace).head? = some '+' then
    (parseIntDigits (cs.dropWhile isJsSpace).tail).map (fun m : Nat => (m : Int))
  else (parseIntDigits (cs.dropWhile isJsSpace)).map (fun m : Nat => (m : Int))

/-- `parseInt` applied to a backing-store read: `parseInt(null)` coerces the
argument to the string `"null"`, which parses to NaN (`none`). -/
def jsParseIntOpt : Option Str → Option Int
  | none => none
  | some cs => jsParseInt cs

/-- Decimal digit characters, fuel-indexed so the kernel can evaluate it;
the fuel strictly exceeds the number, which shrinks by division by 10. -/
def natToDigitsAux : Nat → Nat → Str
  | 0, _ => []
  | fuel + 1, n =>
    if n < 10 then [Char.ofNat (48 + n)]
    else natToDigitsAux fuel (n / 10) ++ [Char.ofNat (48 + n % 10)]

/-- Decimal digit characters of a natural number, most significant first. -/
def natToDigits (n : Nat) : Str := natToDigitsAux (n + 1) n

/-- The decimal-string form of an integer, as the backing store receives it
when the wrapper writes a numeric expiry timestamp. -/
def intToChars (n : Int) : Str :=
  if n < 0 then '-' :: natToDigits n.natAbs else natToDigits n.natAbs

/-- The reserved name tag put in front of a logical key to derive the key of
its expiry record (source field `_expiration_key_prefix`). -/
def expTag : Str := "__expired_storage_ts__".data

/-- The backing-store key of the expiry record of logical key `key`. -/
def expKey (key : Str) : Str := expTag ++ key

/-- `getTimeLeft(key)`: parse the expiry record; a truthy (non-zero,
non-NaN) parsed expiry instant gives the remaining seconds, anything else
gives `null` (`none`). -/
def getTimeLeft (now : Int) (key : Str) (s : Store) : Option Int :=
  match jsParseIntOpt (storeGet (expKey key) s) with
  | some n => if n = 0 then none else some (n - now)
  | none => none

/-- `isExpired(key)`: the time left is non-null and at most zero. -/
def isExpired (now : Int) (key : Str) (s : Store) : Bool :=
  match getTimeLeft now key s with
  | some t => decide (t ≤ 0)
  | none => false

/-- `updateExpiration(key, expiration)`: unconditionally write
`getTimestamp() + expiration` to the expiry record. -/
def updateExpiration (now : Int) (key : Str) (expiration : Int) (s : Store) : Store :=
  storeSet (expKey key) (intToChars (now + expiration)) s

/-- `setItem(key, value, expiration)`: write the value, then write the
expiry record only when `expiration` is truthy (present and non-zero). -/
def setItem (now : Int) (key value : Str) (expiration : Option Int) (s : Store) : Store :=
  let s1 := storeSet key value s
  match expiration with
  | some e => if e = 0 then s1 else updateExpiration now key e s1
  | none => s1

/-- `removeItem(key)`: remove the value entry and then the expiry record. -/
def removeItem (key : Str) (s : Store) : Store :=
  storeRemove (expKey key) (storeRemove key s)

/-- `getItem(key)`: when the key is expired, remove it (and its expiry
record) and return `null`; otherwise return the raw backing-store read.
The result pairs the returned value with the backing store afterwards. -/
def getItem (now : Int) (key : Str) (s : Store) : Option Str × Store :=
  if isExpired now key s then (none, removeItem key s) else (storeGet key s, s)

/-- The record returned by `peek`. -/
structure Peek where
  value : Option Str
  timeLeft : Option Int
  isExpired : Bool
deriving Repr, DecidableEq

/-- `peek(key)`: raw value, time left, and the derived expired flag
(`timeLeft !== null && timeLeft <= 0`); only backing-store reads are
performed, so the store comes back as it was. -/
def peek (now : Int) (key : Str) (s : Store) : Peek × Store :=
  let v := storeGet key s
  let tl := getTimeLeft now key s
  let ex := match tl with
    | some t => decide (t ≤ 0)
    | none => false
  (⟨v, tl, ex⟩, s)

/-- `keys(includeExpired)`: every enumerated backing-store key that does not
begin with the expiry tag, keeping expired ones only on request; only reads
are performed, so the store comes back as it was. -/
def keys (now : Int) (includeExpired : Bool) (s : Store) : List Str × Store :=
  ((storeKeys s).filter
    (fun k => !beginsWith expTag k && (includeExpired || !isExpired now k s)), s)

/-- The sweep of `clearExpired` over the snapshotted key enumeration: each
expiry-record key whose derived logical key is expired has that logical key
removed (value and record) and appended to the returned list. -/
def clearExpiredAux (now : Int) : List Str → Store → List Str × Store
  | [], s => ([], s)
  | sk :: rest, s =>
    if beginsWith expTag sk then
      if isExpired now (sk.drop expTag.length) s then
        (sk.drop expTag.length
            :: (clearExpiredAux now rest (removeItem (sk.drop expTag.length) s)).1,
          (clearExpiredAux now rest (removeItem (sk.drop expTag.length) s)).2)
      else clearExpiredAux now rest s
    else clearExpiredAux now rest s

/-- `clearExpired()`: sweep the enumerated keys and return the removed
logical keys in enumeration order together with the store afterwards. -/
def clearExpired (now : Int) (s : Store) : List Str × Store :=
  clearExpiredAux now (storeKeys s) s

/-- A JSON-serializable JS value.  `undefined` is not a JSON value: the
argument of `setJson` is an `Option Json` whose `none` models it.  The
numeric fragment is modelled over the integers, matching the numbers the
wrapper itself manipulates (epoch-second timestamps and TTLs). -/
inductive Json where
  | null : Json
  | bool (b : Bool) : Json
  | num (n : Int) : Json
  | str (s : Str) : Json
  | arr (elements : List Json) : Json
  | obj (members : List (Str × Json)) : Json

/-- A lowercase hexadecimal digit character for `n < 16`. -/
def hexDig (n : Nat) : Char :=
  if n < 10 then Char.ofNat (48 + n) else Char.ofNat (87 + n)

/-- One character of a JSON string body as `JSON.stringify` emits it: quote
and backslash and the five named control characters get short escapes,
other control characters get a `\u00xx` escape, all else is literal. -/
def escChar (c : Char) : Str :=
  if c = '"' then ['\\', '"']
  else if c = '\\' then ['\\', '\\']
  else if c = '\n' then ['\\', 'n']
  else if c = '\r' then ['\\', 'r']
  else if c = '\t' then ['\\', 't']
  else if c.toNat = 8 then ['\\', 'b']
  else if c.toNat = 12 then ['\\', 'f']
  else if c.toNat < 32 then ['\\', 'u', '0', '0', hexDig (c.toNat / 16), hexDig (c.toNat % 16)]
  else [c]

/-- The escaped body of a JSON string literal. -/
def escRun : Str → Str
  | [] => []
  | c :: t => escChar c ++ escRun t

/-- A JSON string literal: quote, escaped body, quote. -/
def strLit (s : Str) : Str := '"' :: (escRun s ++ ['"'])

mutual

/-- `JSON.stringify` (on the modelled value space): renders with no
insignificant whitespace, exactly as the JS builtin does. -/
def stringify : Json → Str
  | .null => "null".data
  | .bool b => if b then "true".data else "false".data
  | .num n => intToChars n
  | .str s => strLit s
  | .arr es => '[' :: (stringifyElems es ++ [']'])
  | .obj ms => '\x7b' :: (stringifyMembers ms ++ ['\x7d'])

/-- Comma-separated renderings of array elements. -/
def stringifyElems : List Json → Str
  | [] => []
  | v :: tl => stringify v ++ stringifySep tl

/-- The tail of a comma-separated element list. -/
def stringifySep : List Json → Str
  | [] => []
  | v :: tl => ',' :: (stringify v ++ stringifySep tl)

/-- Comma-separated renderings of object members. -/
def stringifyMembers : List (Str × Json) → Str
  | [] => []
  | m :: tl => strLit m.1 ++ ':' :: (stringify m.2 ++ stringifyMemberSep tl)

/-- The tail of a comma-separated member list. -/
def stringifyMemberSep : List (Str × Json) → Str
  | [] => []
  | m :: tl => ',' :: (strLit m.1 ++ ':' :: (stringify m.2 ++ stringifyMemberSep tl))

end

/-- Undo one short escape of a JSON string body. -/
def unescChar (e : Char) : Option Char :=
  if e = '"' then some '"'
  else if e = '\\' then some '\\'
  else if e = '/' then some '/'
  else if e = 'n' then some '\n'
  else if e = 'r' then some '\r'
  else if e = 't' then some '\t'
  else if e = 'b' then some (Char.ofNat 8)
  else if e = 'f' then some (Char.ofNat 12)
  else none

/-- Parse a JSON string body after its opening quote, returning the decoded
characters and the input after the closing quote. -/
def parseStr : Str → Option (Str × Str)
  | [] => none
  | c :: cs =>
    if c = '"' then some ([], cs)
    else if c = '\\' then
      match cs with
      | [] => none
      | e :: cs2 =>
        if e = 'u' then
          match cs2 with
          | h1 :: h2 :: h3 :: h4 :: cs3 =>
            if isHexDig h1 && isHexDig h2 && isHexDig h3 && isHexDig h4 then
              (parseStr cs3).map (fun r =>
                (Char.ofNat (((hexDigVal h1 * 16 + hexDigVal h2) * 16 + hexDigVal h3) * 16
                  + hexDigVal h4) :: r.1, r.2))
            else none
          | _ => none
        else
          match unescChar e with
          | some d => (parseStr cs2).map (fun r => (d :: r.1, r.2))
          | none => none
    else (parseStr cs).map (fun r => (c :: r.1, r.2))

/-- Parse a leading run of decimal digits with its value. -/
def decRun (cs : Str) : Option (Nat × Str) :=
  if (cs.takeWhile isDig).isEmpty then none
  else some (digitsVal (cs.takeWhile isDig), cs.dropWhile isDig)

/-- Parse a JSON number (the integer fragment). -/
def parseNum (cs : Str) : Option (Json × Str) :=
  if cs.head? = some '-' then (decRun cs.tail).map (fun r => (Json.num (-(r.1 : Int)), r.2))
  else (decRun cs).map (fun r => (Json.num ((r.1 : Int)), r.2))

mutual

/-- `JSON.parse`, one value: fuel-indexed recursive descent over the exact
grammar `JSON.stringify` emits. -/
def parseVal : Nat → Str → Option (Json × Str)
  | 0, _ => none
  | fuel + 1, cs =>
    match cs with
    | [] => none
    | c :: rest =>
      if c = 'n' then
        match rest with
        | 'u' :: 'l' :: 'l' :: r => some (.null, r)
        | _ => none
      else if c = 't' then
        match rest with
        | 'r' :: 'u' :: 'e' :: r => some (.bool true, r)
        | _ => none
      else if c = 'f' then
        match rest with
        | 'a' :: 'l' :: 's' :: 'e' :: r => some (.bool false, r)
        | _ => none
      else if c = '"' then (parseStr rest).map (fun r => (Json.str r.1, r.2))
      else if c = '[' then
        if rest.head? = some ']' then some (.arr [], rest.tail)
        else (parseElems fuel rest).map (fun r => (Json.arr r.1, r.2))
      else if c = '\x7b' then
        if rest.head? = some '\x7d' then some (.obj [], rest.tail)
        else (parseMembers fuel rest).map (fun r => (Json.obj r.1, r.2))
      else parseNum (c :: rest)

/-- One or more comma-separated array elements up to the closing bracket. -/
def parseElems : Nat → Str → Option (List Json × Str)
  | 0, _ => none
  | fuel + 1, cs =>
    (parseVal fuel cs).bind (fun vr =>
      if vr.2.head? = some ',' then
        (parseElems fuel vr.2.tail).map (fun r => (vr.1 :: r.1, r.2))
      else if vr.2.head? = some ']' then some ([vr.1], vr.2.tail)
      else none)

/-- One or more comma-separated object members up to the closing brace. -/
def parseMembers : Nat → Str → Option (List (Str × Json) × Str)
  | 0, _ => none
  | fuel + 1, cs =>
    if cs.head? = some '"' then
      (parseStr cs.tail).bind (fun kr =>
        if kr.2.head? = some ':' then
          (parseVal fuel kr.2.tail).bind (fun vr =>
            if vr.2.head? = some ',' then
              (parseMembers fuel vr.2.tail).map (fun r => ((kr.1, vr.1) :: r.1, r.2))
            else if vr.2.head? = some '\x7d' then some ([(kr.1, vr.1)], vr.2.tail)
            else none)
        else none)
    else none

end

/-- `JSON.parse` of a whole document: the value must consume the input. -/
def jsonParse (cs : Str) : Option Json :=
  (parseVal (cs.length + 1) cs).bind (fun r => if r.2.isEmpty then some r.1 else none)

/-- `setJson(key, val, expiration)`: serializing `undefined` throws before
anything is written; any other value is stringified and passed to
`setItem`. -/
def setJson (now : Int) (key : Str) (val : Option Json) (expiration : Option Int)
    (s : Store) : Except String Unit × Store :=
  match val with
  | none => (.error "Cannot set undefined value as JSON!", s)
  | some v => (.ok (), setItem now key (stringify v) expiration s)

/-- `getJson(key)`: read through `getItem` (so expired entries are evicted
and read as `null`, returned unchanged as JS `null` = JSON null), otherwise
`JSON.parse` the stored text (a parse failure throws). -/
def getJson (now : Int) (key : Str) (s : Store) : Except String Json × Store :=
  match (getItem now key s).1 with
  | none => (.ok Json.null, (getItem now key s).2)
  | some txt =>
    match jsonParse txt with
    | some v => (.ok v, (getItem now key s).2)
    | none => (.error "SyntaxError: JSON.parse", (getItem now key s).2)

/-- The input after a rendered number may not continue with a digit; every
JSON delimiter and the end of input qualify. -/
def noDigitHead (cs : Str) : Prop := ∀ c, cs.head? = some c → isDig c = false

/-! ### Concrete inputs used by the witnesses -/

/-- A compound JSON value exercised by the round-trip witness. -/
def vJson : Json :=
  Json.obj [(['a'], Json.arr [Json.num (-2), Json.str ['x', '"'], Json.bool false]),
    (['b'], Json.null)]

/-- A one-character logical key used in concrete instances. -/
def kDemo : Str := ['k']

/-- A one-character value used in concrete instances. -/
def vDemo : Str := ['v']

/-- A store holding `k -> v` with TTL 10 written at time 0. -/
def demoTtl : Store := setItem 0 kDemo vDemo (some 10) []

/-- The store of the documented sweep scenario: keys `a`, `b`, `c` with
TTLs 10, 15, 25 and `d` with no TTL, all set at time 0. -/
def demoScenario : Store :=
  setItem 0 ['d'] ['4'] none
    (setItem 0 ['c'] ['3'] (some 25)
      (setItem 0 ['b'] ['2'] (some 15)
        (setItem 0 ['a'] ['1'] (some 10) [])))

/-! ### Backing-store lemmas -/

theorem storeGet_storeSet (x y : Str) (v : Str) (s : Store) :
    storeGet x (storeSet y v s) = if y = x then some v else storeGet x s := by
  induction s with
  | nil => by_cases h : y = x <;> simp [storeSet, storeGet, h]
  | cons p t ih =>
    obtain ⟨pk, pv⟩ := p
    simp only [storeSet]
    by_cases hp : pk = y
    · subst hp
      by_cases h : pk = x
      · subst h
        simp [storeGet]
      · simp [storeGet, h, fun e : pk = x => h e]
    · simp only [if_neg hp]
      by_cases hx : pk = x
      · have hyx : ¬ y = x := fun e => hp (hx.trans e.symm)
        simp [storeGet, hx, hyx]
      · simp [storeGet, hx, ih]

theorem storeGet_storeRemove (x y : Str) (s : Store) :
    storeGet x (storeRemove y s) = if y = x then none else storeGet x s := by
  induction s with
  | nil => by_cases h : y = x <;> simp [storeRemove, storeGet, h]
  | cons p t ih =>
    obtain ⟨pk, pv⟩ := p
    simp only [storeRemove]
    by_cases hp : pk = y
    · subst hp
      by_cases h : pk = x
      · subst h
        simp [storeGet, ih]
      · have hyx : ¬ pk = x := h
        simp [storeGet, hyx, ih]
    · simp only [if_neg hp]
      by_cases hx : pk = x
      · have hyx : ¬ y = x := fun e => hp (hx.trans e.symm)
        simp [storeGet, hx, hyx]
      · simp [storeGet, hx, ih]

theorem storeGet_none_storeRemove (x y : Str) (s : Store) (h : storeGet x s = none) :
    storeGet x (storeRemove y s) = none := by
  rw [storeGet_storeRemove]
  by_cases hyx : y = x <;> simp [hyx, h]

/-! ### Tag and key-shape lemmas -/

theorem beginsWith_append (t r : Str) : beginsWith t (t ++ r) = true := by
  induction t with
  | nil => rfl
  | cons c cs ih => simp [beginsWith, ih]

theorem append_drop_of_beginsWith {t k : Str} (h : beginsWith t k = true) :
    t ++ k.drop t.length = k := by
  induction t generalizing k with
  | nil => simp
  | cons c cs ih =>
    cases k with
    | nil => simp [beginsWith] at h
    | cons d ds =>
      simp only [beginsWith, Bool.and_eq_true, decide_eq_true_eq] at h
      obtain ⟨rfl, h2⟩ := h
      simpa using ih h2

theorem drop_expKey (k : Str) : (expKey k).drop expTag.length = k :=
  List.drop_left expTag k

theorem expKey_ne_self (k : Str) : expKey k ≠ k := by
  intro h
  have hlen := congrArg List.length h
  rw [expKey, List.length_append] at hlen
  have h22 : expTag.length = 22 := by decide
  omega

theorem expKey_inj {a b : Str} (h : expKey a = expKey b) : a = b := by
  have := congrArg (List.drop expTag.length) h
  simpa [drop_expKey] using this

/-! ### Digit-string lemmas: the wrapper writes expiry instants with
`intToChars` and reads them back with `jsParseInt`. -/

theorem toNat_digitChar (n : Nat) (h : n < 10) : (Char.ofNat (48 + n)).toNat = 48 + n := by
  interval_cases n <;> decide

theorem isDig_digitChar (n : Nat) (h : n < 10) : isDig (Char.ofNat (48 + n)) = true := by
  interval_cases n <;> decide

theorem natToDigitsAux_congr : ∀ f1 f2 n : Nat, n < f1 → n < f2 →
    natToDigitsAux f1 n = natToDigitsAux f2 n := by
  intro f1
  induction f1 with
  | zero => omega
  | succ f ih =>
    intro f2 n h1 h2
    cases f2 with
    | zero => omega
    | succ g =>
      rw [natToDigitsAux, natToDigitsAux]
      by_cases h : n < 10
      · simp [h]
      · rw [if_neg h, if_neg h, ih g (n / 10) (by omega) (by omega)]

theorem natToDigits_eq (n : Nat) : natToDigits n
    = if n < 10 then [Char.ofNat (48 + n)]
      else natToDigits (n / 10) ++ [Char.ofNat (48 + n % 10)] := by
  rw [natToDigits, natToDigitsAux]
  by_cases h : n < 10
  · simp [h]
  · rw [if_neg h, if_neg h, natToDigits,
      natToDigitsAux_congr n (n / 10 + 1) (n / 10) (by omega) (by omega)]

theorem natToDigits_ne_nil (n : Nat) : natToDigits n ≠ [] := by
  rw [natToDigits_eq]
  by_cases h : n < 10 <;> simp [h]

theorem natToDigits_digits (n : Nat) : ∀ c ∈ natToDigits n, isDig c = true := by
  induction n using Nat.strong_induction_on with
  | _ n ih =>
    rw [natToDigits_eq]
    by_cases h : n < 10
    · simp only [if_pos h, List.mem_singleton]
      rintro c rfl
      exact isDig_digitChar n h
    · simp only [if_neg h, List.mem_append, List.mem_singleton]
      rintro c (hc | rfl)
      · exact ih (n / 10) (Nat.div_lt_self (by omega) (by omega)) c hc
      · exact isDig_digitChar (n % 10) (Nat.mod_lt _ (by omega))

theorem digitsVal_natToDigits (n : Nat) : digitsVal (natToDigits n) = n := by
  induction n using Nat.strong_induction_on with
  | _ n ih =>
    rw [natToDigits_eq]
    by_cases h : n < 10
    · simp [digitsVal, h, toNat_digitChar n h]
    · have hrec := ih (n / 10) (Nat.div_lt_self (by omega) (by omega))
      simp only [if_neg h, digitsVal, List.foldl_append, List.foldl_cons, List.foldl_nil]
      rw [digitsVal] at hrec
      rw [hrec, toNat_digitChar (n % 10) (Nat.mod_lt _ (by omega))]
      omega

theorem isDig_toNat {c : Char} (h : isDig c = true) : 48 ≤ c.toNat ∧ c.toNat ≤ 57 := by
  simpa [isDig] using h

theorem isDig_ne {c : Char} (h : isDig c = true) (d : Char)
    (hd : d.toNat < 48 ∨ 57 < d.toNat) : c ≠ d := by
  rintro rfl
  have := isDig_toNat h
  omega

theorem isDig_not_space {c : Char} (h : isDig c = true) : isJsSpace c = false := by
  have := isDig_toNat h
  simp only [isJsSpace, Bool.or_eq_false_iff, Bool.and_eq_false_iff,
    decide_eq_false_iff_not]
  omega

theorem takeWhile_all {p : Char → Bool} {l : Str} (h : ∀ c ∈ l, p c = true) :
    l.takeWhile p = l := by
  induction l with
  | nil => rfl
  | cons c t ih =>
    rw [List.takeWhile_cons, if_pos (h c (by simp))]
    rw [ih (fun x hx => h x (by simp [hx]))]

theorem natToDigits_cons (n : Nat) :
    ∃ c t, natToDigits n = c :: t ∧ isDig c = true := by
  cases h : natToDigits n with
  | nil => exact absurd h (natToDigits_ne_nil n)
  | cons c t =>
    refine ⟨c, t, rfl, natToDigits_digits n c ?_⟩
    rw [h]
    simp

theorem parseIntDigits_natToDigits (n : Nat) : parseIntDigits (natToDigits n) = some n := by
  obtain ⟨c, t, hct, hc⟩ := natToDigits_cons n
  have hall := natToDigits_digits n
  rw [hct] at hall ⊢
  have hhex : ((c :: t).head? = some '0'
      && ((c :: t).tail.head? = some 'x' || (c :: t).tail.head? = some 'X')) = false := by
    cases t with
    | nil => simp
    | cons c2 t2 =>
      have h2 : isDig c2 = true := hall c2 (by simp)
      have hx : c2 ≠ 'x' := isDig_ne h2 'x' (by right; decide)
      have hX : c2 ≠ 'X' := isDig_ne h2 'X' (by right; decide)
      simp [hx, hX]
  rw [parseIntDigits, if_neg (by simp_all)]
  have htw : (c :: t).takeWhile isDig = c :: t := takeWhile_all hall
  simp only [htw]
  rw [if_neg (by simp)]
  have := digitsVal_natToDigits n
  rw [hct] at this
  rw [this]

theorem jsParseInt_intToChars (n : Int) : jsParseInt (intToChars n) = some n := by
  by_cases hneg : n < 0
  · have hdw : ('-' :: natToDigits n.natAbs).dropWhile isJsSpace
        = '-' :: natToDigits n.natAbs := by
      rw [List.dropWhile_cons, if_neg (by decide)]
    rw [intToChars, if_pos hneg, jsParseInt, hdw]
    simp only [List.head?_cons, List.tail_cons]
    rw [if_pos trivial, parseIntDigits_natToDigits]
    show some (-((n.natAbs : Nat) : Int)) = some n
    congr 1
    omega
  · obtain ⟨c, t, hct, hc⟩ := natToDigits_cons n.natAbs
    have hminus : c ≠ '-' := isDig_ne hc '-' (by left; decide)
    have hplus : c ≠ '+' := isDig_ne hc '+' (by left; decide)
    have hdw : (natToDigits n.natAbs).dropWhile isJsSpace = natToDigits n.natAbs := by
      rw [hct, List.dropWhile_cons, if_neg (by simp [isDig_not_space hc])]
    rw [intToChars, if_neg hneg, jsParseInt, hdw, hct]
    simp only [List.head?_cons, List.tail_cons]
    rw [if_neg (by simp [hminus]), if_neg (by simp [hplus]), ← hct,
      parseIntDigits_natToDigits]
    show some ((n.natAbs : Nat) : Int) = some n
    congr 1
    omega

/-- The expiry record freshly written by `updateExpiration` reads back as
the instant that was written, and the time left follows the truthiness of
that instant: a zero instant is treated as no expiration. -/
theorem getTimeLeft_storeSet_expKey (now m : Int) (k : Str) (s : Store) :
    getTimeLeft now k (storeSet (expKey k) (intToChars m) s)
      = if m = 0 then none else some (m - now) := by
  rw [getTimeLeft, storeGet_storeSet, if_pos rfl]
  simp only [jsParseIntOpt, jsParseInt_intToChars]

/-! ### Wrapper-operation lemmas -/

theorem getTimeLeft_absent {now : Int} {key : Str} {s : Store}
    (h : storeGet (expKey key) s = none) : getTimeLeft now key s = none := by
  rw [getTimeLeft, h]
  rfl

theorem isExpired_iff_timeLeft (now : Int) (key : Str) (s : Store) :
    isExpired now key s = true ↔ ∃ t, getTimeLeft now key s = some t ∧ t ≤ 0 := by
  rw [isExpired]
  cases h : getTimeLeft now key s with
  | none => simp
  | some t => simp

theorem setItem_falsy (now : Int) (key value : Str) (s : Store) :
    setItem now key value none s = storeSet key value s ∧
    setItem now key value (some 0) s = storeSet key value s := by
  constructor
  · rfl
  · simp [setItem]

theorem setItem_truthy (now : Int) (key value : Str) {e : Int} (he : e ≠ 0) (s : Store) :
    setItem now key value (some e) s
      = storeSet (expKey key) (intToChars (now + e)) (storeSet key value s) := by
  simp [setItem, he, updateExpiration]

theorem beginsWith_expKey (k : Str) : beginsWith expTag (expKey k) = true :=
  beginsWith_append expTag k

theorem ne_expKey_of_untagged {key : Str} (h : beginsWith expTag key = false) (kk : Str) :
    key ≠ expKey kk := by
  intro e
  rw [e, beginsWith_expKey] at h
  simp at h

/-! ### The claims -/

/-- Claim C1: for a key expired at call time, `getItem` returns the
not-found sentinel and leaves both the value entry and the expiry record
absent from the backing store; for a key not expired at call time it
returns the raw backing-store read (not-found if never set) and mutates
nothing. -/
theorem claim1_getItem (now : Int) (key : Str) (s : Store) :
    (isExpired now key s = true →
      (getItem now key s).1 = none ∧
      storeGet key (getItem now key s).2 = none ∧
      storeGet (expKey key) (getItem now key s).2 = none) ∧
    (isExpired now key s = false →
      getItem now key s = (storeGet key s, s)) := by
  constructor
  · intro h
    rw [getItem, if_pos h]
    refine ⟨rfl, ?_, ?_⟩
    · rw [removeItem, storeGet_storeRemove, if_neg (expKey_ne_self key),
        storeGet_storeRemove, if_pos rfl]
    · rw [removeItem, storeGet_storeRemove, if_pos rfl]
  · intro h
    rw [getItem, if_neg (by simp [h])]

/-- Claim C1 witness: at time 15 the entry `k -> v` written at time 0 with
TTL 10 is expired, so `getItem` answers `none` and scrubs both entries; at
time 5 it is alive, so `getItem` answers the raw read and keeps the store. -/
theorem claim1_witness :
    ((getItem 15 kDemo demoTtl).1 = none ∧
      storeGet kDemo (getItem 15 kDemo demoTtl).2 = none ∧
      storeGet (expKey kDemo) (getItem 15 kDemo demoTtl).2 = none) ∧
    getItem 5 kDemo demoTtl = (storeGet kDemo demoTtl, demoTtl) :=
  ⟨(claim1_getItem 15 kDemo demoTtl).1 (by decide),
   (claim1_getItem 5 kDemo demoTtl).2 (by decide)⟩

/-- Claim C2 counterexample: an expiry record whose stored content is the
string `"0"` parses as the number 0, yet `getTimeLeft` returns the
no-expiry sentinel — so the sentinel is not returned exactly when the
record is absent or unparseable, refuting the claim as stated. -/
theorem claim2_counterexample :
    jsParseIntOpt (storeGet (expKey kDemo) [(expKey kDemo, ['0'])]) = some 0 ∧
    getTimeLeft 5 kDemo [(expKey kDemo, ['0'])] = none := by
  constructor <;> decide

/-- Claim C2 (amended): `getTimeLeft` returns the no-expiry sentinel
exactly when the parsed expiry record is NaN (absent or unparseable) or
parses to the falsy number 0; a record parsing to a non-zero number `n`
gives `n - now` (possibly negative).  After `setItem` with positive TTL
`t` at time `T`, provided the recorded instant `T + t` is non-zero,
querying at `T + t` gives 0 and at `T + t + 5` gives -5. -/
theorem claim2_getTimeLeft (now : Int) (key : Str) (s : Store) :
    (getTimeLeft now key s = none ↔
      (jsParseIntOpt (storeGet (expKey key) s) = none ∨
        jsParseIntOpt (storeGet (expKey key) s) = some 0)) ∧
    (∀ n : Int, jsParseIntOpt (storeGet (expKey key) s) = some n → n ≠ 0 →
      getTimeLeft now key s = some (n - now)) ∧
    (∀ T t : Int, ∀ value : Str, ∀ s0 : Store, 0 < t → T + t ≠ 0 →
      getTimeLeft (T + t) key (setItem T key value (some t) s0) = some 0 ∧
      getTimeLeft (T + t + 5) key (setItem T key value (some t) s0) = some (-5)) := by
  refine ⟨?_, ?_, ?_⟩
  · rw [getTimeLeft]
    cases h : jsParseIntOpt (storeGet (expKey key) s) with
    | none => simp
    | some n =>
      by_cases hn : n = 0
      · simp [hn]
      · simp [hn]
  · intro n h hn
    rw [getTimeLeft, h]
    simp [hn]
  · intro T t value s0 ht hnz
    rw [setItem_truthy T key value (by omega) s0,
      getTimeLeft_storeSet_expKey, getTimeLeft_storeSet_expKey,
      if_neg hnz, if_neg hnz]
    constructor
    · congr 1
      omega
    · congr 1
      omega

/-- Claim C2 witness: a record parsing to the non-zero instant 7 read at
time 3 leaves 4 seconds, and the concrete TTL scenario at `T = 0`,
`t = 10` yields 0 at expiry and -5 five seconds later. -/
theorem claim2_witness :
    getTimeLeft 3 kDemo [(expKey kDemo, ['7'])] = some 4 ∧
    getTimeLeft 10 kDemo (setItem 0 kDemo vDemo (some 10) []) = some 0 ∧
    getTimeLeft 15 kDemo (setItem 0 kDemo vDemo (some 10) []) = some (-5) :=
  ⟨(claim2_getTimeLeft 3 kDemo [(expKey kDemo, ['7'])]).2.1 7 (by decide) (by decide),
   by
    have h := (claim2_getTimeLeft 0 kDemo []).2.2 0 10 vDemo [] (by decide) (by decide)
    exact ⟨h.1, by simpa using h.2⟩⟩

/-- Claim C3: `peek` hands the store back untouched for every key
(expired ones included), its fields are the raw read, `getTimeLeft`, and
the flag that the time left is non-null and at most zero, so peeking twice
gives the same answer and the raw value is still found afterwards. -/
theorem claim3_peek (now : Int) (key : Str) (s : Store) :
    (peek now key s).2 = s ∧
    (peek now key s).1.value = storeGet key s ∧
    (peek now key s).1.timeLeft = getTimeLeft now key s ∧
    ((peek now key s).1.isExpired = true ↔
      ∃ t, getTimeLeft now key s = some t ∧ t ≤ 0) ∧
    peek now key (peek now key s).2 = peek now key s ∧
    storeGet key (peek now key s).2 = storeGet key s := by
  refine ⟨rfl, rfl, rfl, ?_, rfl, rfl⟩
  rw [peek]
  cases h : getTimeLeft now key s with
  | none => simp [h]
  | some t => simp [h]

/-- Claim C3 witness: the peek equations instantiated on the expired demo
entry at time 15. -/
theorem claim3_witness :
    (peek 15 kDemo demoTtl).2 = demoTtl ∧
    (peek 15 kDemo demoTtl).1.value = storeGet kDemo demoTtl ∧
    (peek 15 kDemo demoTtl).1.timeLeft = getTimeLeft 15 kDemo demoTtl ∧
    ((peek 15 kDemo demoTtl).1.isExpired = true ↔
      ∃ t, getTimeLeft 15 kDemo demoTtl = some t ∧ t ≤ 0) ∧
    peek 15 kDemo (peek 15 kDemo demoTtl).2 = peek 15 kDemo demoTtl ∧
    storeGet kDemo (peek 15 kDemo demoTtl).2 = storeGet kDemo demoTtl :=
  claim3_peek 15 kDemo demoTtl

/-- Claim C5: a falsy TTL (absent or zero) writes the value and touches no
expiry record — the key's own record and, for keys outside the reserved
tag namespace, every other record as well — while a truthy TTL writes the
value and overwrites the key's expiry record with `now + ttl`.  (The JS
return value is the underlying `setItem` return passed through; the
backing contract leaves it implementation-defined, so the model carries no
separate return.) -/
theorem claim5_setItem (now : Int) (key value : Str) (s : Store) :
    (storeGet key (setItem now key value none s) = some value ∧
      storeGet key (setItem now key value (some 0) s) = some value ∧
      storeGet (expKey key) (setItem now key value none s) = storeGet (expKey key) s ∧
      storeGet (expKey key) (setItem now key value (some 0) s)
        = storeGet (expKey key) s) ∧
    (beginsWith expTag key = false →
      ∀ kk, storeGet (expKey kk) (setItem now key value none s)
          = storeGet (expKey kk) s ∧
        storeGet (expKey kk) (setItem now key value (some 0) s)
          = storeGet (expKey kk) s) ∧
    (∀ e : Int, e ≠ 0 →
      storeGet (expKey key) (setItem now key value (some e) s)
          = some (intToChars (now + e)) ∧
      storeGet key (setItem now key value (some e) s) = some value) := by
  obtain ⟨hnone, hzero⟩ := setItem_falsy now key value s
  refine ⟨⟨?_, ?_, ?_, ?_⟩, ?_, ?_⟩
  · rw [hnone, storeGet_storeSet, if_pos rfl]
  · rw [hzero, storeGet_storeSet, if_pos rfl]
  · rw [hnone, storeGet_storeSet, if_neg (fun e => expKey_ne_self key e.symm)]
  · rw [hzero, storeGet_storeSet, if_neg (fun e => expKey_ne_self key e.symm)]
  · intro h kk
    constructor
    · rw [hnone, storeGet_storeSet, if_neg (fun e => ne_expKey_of_untagged h kk e)]
    · rw [hzero, storeGet_storeSet, if_neg (fun e => ne_expKey_of_untagged h kk e)]
  · intro e he
    rw [setItem_truthy now key value he s]
    constructor
    · rw [storeGet_storeSet, if_pos rfl]
    · rw [storeGet_storeSet, if_neg (expKey_ne_self key), storeGet_storeSet, if_pos rfl]

/-- Claim C5 witness: re-setting `k` in the demo store without a TTL keeps
its live expiry record; setting with TTL -3 at time 9 overwrites it. -/
theorem claim5_witness :
    (beginsWith expTag kDemo = false ∧
      storeGet (expKey kDemo) (setItem 9 kDemo vDemo none demoTtl)
        = storeGet (expKey kDemo) demoTtl) ∧
    storeGet (expKey kDemo) (setItem 9 kDemo vDemo (some (-3)) demoTtl)
      = some (intToChars 6) :=
  ⟨⟨by decide, ((claim5_setItem 9 kDemo vDemo demoTtl).2.1 (by decide) kDemo).1⟩,
   by
    have h := ((claim5_setItem 9 kDemo vDemo demoTtl).2.2 (-3) (by decide)).1
    simpa using h⟩

/-- Claim C6: a key with no expiry record has null time left and is not
expired, at every timestamp; and in general `isExpired` holds exactly when
`getTimeLeft` is non-null and at most zero. -/
theorem claim6_no_record (now : Int) (key : Str) (s : Store) :
    (storeGet (expKey key) s = none →
      getTimeLeft now key s = none ∧ isExpired now key s = false) ∧
    (isExpired now key s = true ↔
      ∃ t, getTimeLeft now key s = some t ∧ t ≤ 0) := by
  refine ⟨?_, isExpired_iff_timeLeft now key s⟩
  intro h
  have h1 : getTimeLeft now key s = none := getTimeLeft_absent h
  exact ⟨h1, by rw [isExpired, h1]⟩

/-- Claim C6 witness: in a store holding only the value `k -> v`, the key
has no expiry record, null time left and is not expired at time 1000. -/
theorem claim6_witness :
    getTimeLeft 1000 kDemo [(kDemo, vDemo)] = none ∧
    isExpired 1000 kDemo [(kDemo, vDemo)] = false :=
  (claim6_no_record 1000 kDemo [(kDemo, vDemo)]).1 (by decide)

/-- Claim C7: `keys` never returns a key beginning with the expiry tag;
with `includeExpired = false` it returns the `includeExpired = true` list
with exactly the expired keys filtered out; and the store is returned
untouched, so filtered-out expired entries remain stored. -/
theorem claim7_keys (now : Int) (s : Store) :
    (∀ b, (keys now b s).2 = s) ∧
    (∀ b k, k ∈ (keys now b s).1 → beginsWith expTag k = false) ∧
    (keys now false s).1 = (keys now true s).1.filter (fun k => !isExpired now k s) := by
  refine ⟨fun _ => rfl, ?_, ?_⟩
  · intro b k hk
    simp only [keys] at hk
    rw [List.mem_filter] at hk
    have := hk.2
    simp only [Bool.and_eq_true, Bool.not_eq_true'] at this
    exact this.1
  · simp only [keys]
    rw [List.filter_filter]
    apply List.filter_congr
    intro k _
    cases beginsWith expTag k <;> cases isExpired now k s <;> rfl

/-- Claim C7 witness: the sweep scenario at time 19 — no returned key is
tagged, `keys false` is `keys true` minus the expired `a` and `b`, and the
store is unchanged. -/
theorem claim7_witness :
    (keys 19 false demoScenario).2 = demoScenario ∧
    (['a'] ∈ (keys 19 true demoScenario).1 →
      beginsWith expTag ['a'] = false) ∧
    (keys 19 false demoScenario).1
      = (keys 19 true demoScenario).1.filter (fun k => !isExpired 19 k demoScenario) :=
  ⟨(claim7_keys 19 demoScenario).1 false,
   (claim7_keys 19 demoScenario).2.1 true ['a'],
   (claim7_keys 19 demoScenario).2.2⟩

/-- Claim C10: a strictly negative TTL whose recorded instant
`now + ttl` is non-zero is accepted and is not the no-TTL case: the expiry
record becomes the past instant `now + ttl`, the key is immediately
expired, and `getItem` returns the not-found sentinel. -/
theorem claim10_negative_ttl (now : Int) (key value : Str) (e : Int) (s : Store)
    (he : e < 0) (hnz : now + e ≠ 0) :
    storeGet (expKey key) (setItem now key value (some e) s)
        = some (intToChars (now + e)) ∧
    isExpired now key (setItem now key value (some e) s) = true ∧
    (getItem now key (setItem now key value (some e) s)).1 = none := by
  have hne : e ≠ 0 := by omega
  have hs := setItem_truthy now key value hne s
  have htl : getTimeLeft now key (setItem now key value (some e) s) = some e := by
    rw [hs, getTimeLeft_storeSet_expKey, if_neg hnz]
    congr 1
    omega
  have hexp : isExpired now key (setItem now key value (some e) s) = true := by
    rw [isExpired, htl]
    simpa using he.le
  refine ⟨?_, hexp, ?_⟩
  · rw [hs, storeGet_storeSet, if_pos rfl]
  · rw [getItem, if_pos hexp]

/-- Claim C10 witness: setting `k` at time 100 with TTL -5 records the
past instant 95, leaves the key expired, and `getItem` finds nothing. -/
theorem claim10_witness :
    storeGet (expKey kDemo) (setItem 100 kDemo vDemo (some (-5)) [])
        = some (intToChars 95) ∧
    isExpired 100 kDemo (setItem 100 kDemo vDemo (some (-5)) []) = true ∧
    (getItem 100 kDemo (setItem 100 kDemo vDemo (some (-5)) [])).1 = none := by
  have h := claim10_negative_ttl 100 kDemo vDemo (-5) [] (by decide) (by decide)
  simpa using h

/-! ### The active sweep -/

theorem storeGet_removeItem_self (k : Str) (s : Store) :
    storeGet k (removeItem k s) = none := by
  rw [removeItem, storeGet_storeRemove, if_neg (expKey_ne_self k), storeGet_storeRemove,
    if_pos rfl]

theorem storeGet_removeItem_exp (k : Str) (s : Store) :
    storeGet (expKey k) (removeItem k s) = none := by
  rw [removeItem, storeGet_storeRemove, if_pos rfl]

theorem getTimeLeft_removeItem_of_ne (now : Int) {k1 k2 : Str} (s : Store)
    (hk : k2 ≠ k1) (hek : expKey k2 ≠ k1) :
    getTimeLeft now k2 (removeItem k1 s) = getTimeLeft now k2 s := by
  rw [getTimeLeft, getTimeLeft, removeItem, storeGet_storeRemove,
    if_neg (fun e => hk (expKey_inj e).symm), storeGet_storeRemove,
    if_neg (fun e => hek e.symm)]

theorem isExpired_removeItem_of_ne (now : Int) {k1 k2 : Str} (s : Store)
    (hk : k2 ≠ k1) (hek : expKey k2 ≠ k1) :
    isExpired now k2 (removeItem k1 s) = isExpired now k2 s := by
  rw [isExpired, isExpired, getTimeLeft_removeItem_of_ne now s hk hek]

theorem clearExpiredAux_list (now : Int) (s : Store) :
    ∀ (eks : List Str) (t : Store),
      eks.Nodup →
      (∀ ek ∈ eks, beginsWith (expTag ++ expTag) ek = false) →
      (∀ ek ∈ eks, beginsWith expTag ek = true →
        isExpired now (ek.drop expTag.length) t
          = isExpired now (ek.drop expTag.length) s) →
      (clearExpiredAux now eks t).1 = eks.filterMap (fun sk =>
        if beginsWith expTag sk && isExpired now (sk.drop expTag.length) s
        then some (sk.drop expTag.length) else none) := by
  intro eks
  induction eks with
  | nil =>
    intro t _ _ _
    rfl
  | cons ek rest ih =>
    intro t hnd hcl hinv
    have hndr : rest.Nodup := hnd.of_cons
    have hclr : ∀ e ∈ rest, beginsWith (expTag ++ expTag) e = false :=
      fun e he => hcl e (List.mem_cons_of_mem _ he)
    simp only [clearExpiredAux]
    by_cases hbw : beginsWith expTag ek = true
    · have hinv0 := hinv ek (List.mem_cons_self _ _) hbw
      have hekfull : expTag ++ ek.drop expTag.length = ek := append_drop_of_beginsWith hbw
      rw [if_pos hbw]
      by_cases hexp : isExpired now (ek.drop expTag.length) t = true
      · have hexps : isExpired now (ek.drop expTag.length) s = true := by
          rw [← hinv0]
          exact hexp
        rw [if_pos hexp]
        have hinv' : ∀ e ∈ rest, beginsWith expTag e = true →
            isExpired now (e.drop expTag.length) (removeItem (ek.drop expTag.length) t)
              = isExpired now (e.drop expTag.length) s := by
          intro e he hbe
          have hefull : expTag ++ e.drop expTag.length = e := append_drop_of_beginsWith hbe
          have hk : e.drop expTag.length ≠ ek.drop expTag.length := by
            intro hdd
            have heq : e = ek := by rw [← hefull, hdd, hekfull]
            exact (List.nodup_cons.mp hnd).1 (heq ▸ he)
          have hek2 : expKey (e.drop expTag.length) ≠ ek.drop expTag.length := by
            intro hcontra
            have hshape : ek = expTag ++ (expTag ++ e.drop expTag.length) := by
              rw [← hekfull, ← hcontra]
              rfl
            have hdbl : beginsWith (expTag ++ expTag) ek = true := by
              rw [hshape, ← List.append_assoc]
              exact beginsWith_append (expTag ++ expTag) _
            rw [hcl ek (List.mem_cons_self _ _)] at hdbl
            exact absurd hdbl (by decide)
          rw [isExpired_removeItem_of_ne now t hk hek2,
            hinv e (List.mem_cons_of_mem _ he) hbe]
        rw [List.filterMap_cons]
        simp only [hbw, hexps, Bool.and_self, if_pos]
        rw [ih (removeItem (ek.drop expTag.length) t) hndr hclr hinv']
      · have hexpf : isExpired now (ek.drop expTag.length) t = false := by
          cases hh : isExpired now (ek.drop expTag.length) t
          · rfl
          · exact absurd hh hexp
        have hexps : isExpired now (ek.drop expTag.length) s = false := by
          rw [← hinv0]
          exact hexpf
        rw [if_neg hexp, List.filterMap_cons]
        simp only [hbw, hexps, Bool.and_false, if_neg, Bool.false_eq_true, reduceIte]
        exact ih t hndr hclr (fun e he hbe => hinv e (List.mem_cons_of_mem _ he) hbe)
    · have hbwf : beginsWith expTag ek = false := by
        cases hh : beginsWith expTag ek
        · rfl
        · exact absurd hh hbw
      rw [if_neg hbw, List.filterMap_cons]
      simp only [hbwf, Bool.false_and, Bool.false_eq_true, reduceIte]
      exact ih t hndr hclr (fun e he hbe => hinv e (List.mem_cons_of_mem _ he) hbe)

theorem storeGet_clearExpiredAux_none (now : Int) :
    ∀ (eks : List Str) (t : Store) (x : Str), storeGet x t = none →
      storeGet x (clearExpiredAux now eks t).2 = none := by
  intro eks
  induction eks with
  | nil =>
    intro t x h
    exact h
  | cons ek rest ih =>
    intro t x h
    simp only [clearExpiredAux]
    by_cases hbw : beginsWith expTag ek = true
    · rw [if_pos hbw]
      by_cases hexp : isExpired now (ek.drop expTag.length) t = true
      · rw [if_pos hexp]
        refine ih _ x ?_
        rw [removeItem]
        exact storeGet_none_storeRemove _ _ _ (storeGet_none_storeRemove _ _ _ h)
      · rw [if_neg hexp]
        exact ih t x h
    · rw [if_neg hbw]
      exact ih t x h

theorem clearExpiredAux_removed_absent (now : Int) :
    ∀ (eks : List Str) (t : Store) (k : Str), k ∈ (clearExpiredAux now eks t).1 →
      storeGet k (clearExpiredAux now eks t).2 = none ∧
      storeGet (expKey k) (clearExpiredAux now eks t).2 = none := by
  intro eks
  induction eks with
  | nil =>
    intro t k h
    exact absurd h (List.not_mem_nil k)
  | cons ek rest ih =>
    intro t k hk
    simp only [clearExpiredAux] at hk ⊢
    by_cases hbw : beginsWith expTag ek = true
    · rw [if_pos hbw] at hk ⊢
      by_cases hexp : isExpired now (ek.drop expTag.length) t = true
      · rw [if_pos hexp] at hk ⊢
        rcases List.mem_cons.mp hk with rfl | hmem
        · constructor
          · exact storeGet_clearExpiredAux_none now rest _ _ (storeGet_removeItem_self _ t)
          · exact storeGet_clearExpiredAux_none now rest _ _ (storeGet_removeItem_exp _ t)
        · exact ih _ k hmem
      · rw [if_neg hexp] at hk ⊢
        exact ih t k hk
    · rw [if_neg hbw] at hk ⊢
      exact ih t k hk

/-- Claim C4: `clearExpired` sweeps the enumerated expiry-record keys,
removing value and record of every expired derived logical key and
returning those keys in enumeration order (on stores whose key enumeration
has no duplicates and respects the reserved-tag namespace invariant of the
data model, i.e. no doubly-tagged key); in the documented scenario
(`a` TTL 10, `b` TTL 15, `c` TTL 25, `d` no TTL, set at 0, now 19) it
returns exactly `a, b` and `keys true` afterwards lists exactly `c, d`. -/
theorem claim4_clearExpired (now : Int) (s : Store)
    (hnodup : (storeKeys s).Nodup)
    (hclean : ∀ k ∈ storeKeys s, beginsWith (expTag ++ expTag) k = false) :
    ((clearExpired now s).1 = (storeKeys s).filterMap (fun sk =>
        if beginsWith expTag sk && isExpired now (sk.drop expTag.length) s
        then some (sk.drop expTag.length) else none) ∧
      ∀ k ∈ (clearExpired now s).1,
        storeGet k (clearExpired now s).2 = none ∧
        storeGet (expKey k) (clearExpired now s).2 = none) ∧
    ((clearExpired 19 demoScenario).1 = [['a'], ['b']] ∧
      (keys 19 true (clearExpired 19 demoScenario).2).1 = [['c'], ['d']]) := by
  refine ⟨⟨?_, ?_⟩, by decide, by decide⟩
  · exact clearExpiredAux_list now s (storeKeys s) s hnodup hclean (fun _ _ _ => rfl)
  · intro k hk
    exact clearExpiredAux_removed_absent now (storeKeys s) s k hk

/-- Claim C4 witness: the sweep characterization instantiated on the
documented scenario store at time 19 with its hypotheses discharged by
computation. -/
theorem claim4_witness :
    (clearExpired 19 demoScenario).1 = (storeKeys demoScenario).filterMap (fun sk =>
        if beginsWith expTag sk && isExpired 19 (sk.drop expTag.length) demoScenario
        then some (sk.drop expTag.length) else none) ∧
    ∀ k ∈ (clearExpired 19 demoScenario).1,
      storeGet k (clearExpired 19 demoScenario).2 = none ∧
      storeGet (expKey k) (clearExpired 19 demoScenario).2 = none :=
  (claim4_clearExpired 19 demoScenario (by decide) (by decide)).1

/-! ### The JSON convenience layer -/

theorem storeGet_setItem_self (now : Int) (key value : Str) (ttl : Option Int) (s : Store) :
    storeGet key (setItem now key value ttl s) = some value := by
  cases ttl with
  | none =>
    rw [(setItem_falsy now key value s).1, storeGet_storeSet, if_pos rfl]
  | some e =>
    by_cases he : e = 0
    · subst he
      rw [(setItem_falsy now key value s).2, storeGet_storeSet, if_pos rfl]
    · rw [setItem_truthy now key value he s, storeGet_storeSet,
        if_neg (expKey_ne_self key), storeGet_storeSet, if_pos rfl]

/-- Claim C8: `setJson` of the missing-value sentinel (`undefined`,
modelled as the `none` argument) throws a ValueError and returns the store
untouched — no value entry, no expiry record; every proper value, the
explicit JSON null included, is accepted; and `setJson(K, null)` followed
by `getJson(K)` returns null. -/
theorem claim8_setJson (now now2 : Int) (key : Str) (ttl : Option Int) (s : Store) :
    setJson now key none ttl s = (.error "Cannot set undefined value as JSON!", s) ∧
    (∀ v : Json, (setJson now key (some v) ttl s).1 = .ok ()) ∧
    (getJson now2 key (setJson now key (some Json.null) ttl s).2).1 = .ok Json.null := by
  refine ⟨rfl, fun v => rfl, ?_⟩
  rw [getJson]
  rcases hg : (getItem now2 key (setJson now key (some Json.null) ttl s).2).1 with _ | txt
  · rfl
  · have htxt : txt = stringify Json.null := by
      rw [getItem] at hg
      by_cases hexp :
          isExpired now2 key (setJson now key (some Json.null) ttl s).2 = true
      · rw [if_pos hexp] at hg
        simp at hg
      · rw [if_neg hexp] at hg
        have hstored :
            storeGet key (setJson now key (some Json.null) ttl s).2
              = some (stringify Json.null) :=
          storeGet_setItem_self now key (stringify Json.null) ttl s
        rw [hstored] at hg
        exact (Option.some_inj.mp hg).symm
    subst htxt
    rfl

/-- Claim C8 witness: the `setJson`/`getJson` laws at a concrete key, TTL
10 and the empty store. -/
theorem claim8_witness :
    setJson 0 kDemo none (some 10) []
        = (.error "Cannot set undefined value as JSON!", []) ∧
    (∀ v : Json, (setJson 0 kDemo (some v) (some 10) []).1 = .ok ()) ∧
    (getJson 2 kDemo (setJson 0 kDemo (some Json.null) (some 10) []).2).1
        = .ok Json.null :=
  claim8_setJson 0 2 kDemo (some 10) []

/-! ### The JSON codec round-trip, strings -/

theorem hexDig_spec (m : Nat) (h : m < 16) :
    hexDigVal (hexDig m) = m ∧ isHexDig (hexDig m) = true := by
  interval_cases m <;> exact ⟨by decide, by decide⟩

theorem parseStr_escChar (c : Char) (cs : Str) :
    parseStr (escChar c ++ cs) = (parseStr cs).map (fun r => (c :: r.1, r.2)) := by
  by_cases h1 : c = '"'
  · subst h1
    show parseStr ('\\' :: '"' :: cs) = _
    rw [parseStr.eq_def]
    simp [unescChar]
  · by_cases h2 : c = '\\'
    · subst h2
      show parseStr ('\\' :: '\\' :: cs) = _
      rw [parseStr.eq_def]
      simp [unescChar]
    · by_cases h3 : c = '\n'
      · subst h3
        show parseStr ('\\' :: 'n' :: cs) = _
        rw [parseStr.eq_def]
        simp [unescChar]
      · by_cases h4 : c = '\r'
        · subst h4
          show parseStr ('\\' :: 'r' :: cs) = _
          rw [parseStr.eq_def]
          simp [unescChar]
        · by_cases h5 : c = '\t'
          · subst h5
            show parseStr ('\\' :: 't' :: cs) = _
            rw [parseStr.eq_def]
            simp [unescChar]
          · by_cases h6 : c.toNat = 8
            · have hc : Char.ofNat 8 = c := by rw [← h6, Char.ofNat_toNat]
              have he : escChar c = ['\\', 'b'] := by
                simp [escChar, h1, h2, h3, h4, h5, h6]
              rw [he]
              show parseStr ('\\' :: 'b' :: cs) = _
              rw [parseStr.eq_def]
              simp [unescChar]
              rw [hc]
            · by_cases h7 : c.toNat = 12
              · have hc : Char.ofNat 12 = c := by rw [← h7, Char.ofNat_toNat]
                have he : escChar c = ['\\', 'f'] := by
                  simp [escChar, h1, h2, h3, h4, h5, h6, h7]
                rw [he]
                show parseStr ('\\' :: 'f' :: cs) = _
                rw [parseStr.eq_def]
                simp [unescChar]
                rw [hc]
              · by_cases h8 : c.toNat < 32
                · obtain ⟨hva, hha⟩ := hexDig_spec (c.toNat / 16) (by omega)
                  obtain ⟨hvb, hhb⟩ := hexDig_spec (c.toNat % 16) (by omega)
                  have harith : ((hexDigVal '0' * 16 + hexDigVal '0') * 16
                      + hexDigVal (hexDig (c.toNat / 16))) * 16
                      + hexDigVal (hexDig (c.toNat % 16)) = c.toNat := by
                    rw [hva, hvb]
                    have h0 : hexDigVal '0' = 0 := by decide
                    rw [h0]
                    omega
                  have he : escChar c = ['\\', 'u', '0', '0',
                      hexDig (c.toNat / 16), hexDig (c.toNat % 16)] := by
                    simp [escChar, h1, h2, h3, h4, h5, h6, h7, h8]
                  rw [he]
                  show parseStr ('\\' :: 'u' :: '0' :: '0'
                      :: hexDig (c.toNat / 16) :: hexDig (c.toNat % 16) :: cs) = _
                  rw [parseStr.eq_def]
                  simp [hha, hhb, show isHexDig '0' = true from by decide,
                    harith, Char.ofNat_toNat]
                · have he : escChar c = [c] := by
                    simp [escChar, h1, h2, h3, h4, h5, h6, h7, h8]
                  rw [he]
                  show parseStr (c :: cs) = _
                  rw [parseStr.eq_def]
                  simp [h1, h2]

theorem parseStr_escRun (s : Str) : ∀ rest : Str,
    parseStr (escRun s ++ '"' :: rest) = some (s, rest) := by
  induction s with
  | nil =>
    intro rest
    show parseStr ('"' :: rest) = some ([], rest)
    rw [parseStr.eq_def]
    simp
  | cons c t ih =>
    intro rest
    rw [escRun, List.append_assoc, parseStr_escChar, ih]
    rfl

/-! ### The JSON codec round-trip, numbers and head shapes -/

theorem noDigitHead_nil : noDigitHead [] := fun _ h => by cases h

theorem noDigitHead_cons {c : Char} (h : isDig c = false) (t : Str) :
    noDigitHead (c :: t) := by
  intro d hd
  have : c = d := Option.some_inj.mp hd
  rw [← this]
  exact h

theorem takeWhile_isDig_append {ds : Str} (hall : ∀ c ∈ ds, isDig c = true)
    {rest : Str} (hrest : noDigitHead rest) :
    (ds ++ rest).takeWhile isDig = ds ∧ (ds ++ rest).dropWhile isDig = rest := by
  induction ds with
  | nil =>
    simp only [List.nil_append]
    cases rest with
    | nil => exact ⟨rfl, rfl⟩
    | cons r t =>
      have hr : isDig r = false := hrest r rfl
      rw [List.takeWhile_cons, List.dropWhile_cons]
      simp [hr]
  | cons d t ih =>
    have hd : isDig d = true := hall d (List.mem_cons_self _ _)
    obtain ⟨h1, h2⟩ := ih (fun x hx => hall x (List.mem_cons_of_mem _ hx))
    rw [List.cons_append, List.takeWhile_cons, List.dropWhile_cons]
    simp [hd, h1, h2]

theorem decRun_digits (m : Nat) {rest : Str} (hrest : noDigitHead rest) :
    decRun (natToDigits m ++ rest) = some (m, rest) := by
  obtain ⟨htw, hdw⟩ := takeWhile_isDig_append (natToDigits_digits m) hrest
  rw [decRun, htw, hdw, if_neg (by simp [natToDigits_ne_nil m]), digitsVal_natToDigits]

theorem parseNum_intToChars (n : Int) {rest : Str} (hrest : noDigitHead rest) :
    parseNum (intToChars n ++ rest) = some (Json.num n, rest) := by
  by_cases hneg : n < 0
  · rw [intToChars, if_pos hneg, List.cons_append, parseNum,
      if_pos (show ('-' :: (natToDigits n.natAbs ++ rest)).head? = some '-' from rfl),
      List.tail_cons, decRun_digits n.natAbs hrest]
    have hval : -((n.natAbs : Nat) : Int) = n := by omega
    show some (Json.num (-((n.natAbs : Nat) : Int)), rest) = some (Json.num n, rest)
    rw [hval]
  · obtain ⟨c, t, hct, hc⟩ := natToDigits_cons n.natAbs
    have hminus : c ≠ '-' := isDig_ne hc '-' (by left; decide)
    rw [intToChars, if_neg hneg, hct, List.cons_append, parseNum,
      if_neg (by simp [hminus]), ← List.cons_append, ← hct,
      decRun_digits n.natAbs hrest]
    have hval : ((n.natAbs : Nat) : Int) = n := by omega
    show some (Json.num ((n.natAbs : Nat) : Int), rest) = some (Json.num n, rest)
    rw [hval]

theorem stringify_cons (v : Json) :
    ∃ c t, stringify v = c :: t ∧ c ≠ ']' ∧ c ≠ '\x7d' := by
  cases v with
  | null => exact ⟨'n', _, rfl, by decide, by decide⟩
  | bool b =>
    cases b with
    | false => exact ⟨'f', _, rfl, by decide, by decide⟩
    | true => exact ⟨'t', _, rfl, by decide, by decide⟩
  | num n =>
    by_cases hneg : n < 0
    · refine ⟨'-', natToDigits n.natAbs, ?_, by decide, by decide⟩
      show intToChars n = _
      rw [intToChars, if_pos hneg]
    · obtain ⟨c, t, hct, hc⟩ := natToDigits_cons n.natAbs
      refine ⟨c, t, ?_, isDig_ne hc ']' (by right; decide),
        isDig_ne hc '\x7d' (by right; decide)⟩
      show intToChars n = _
      rw [intToChars, if_neg hneg, hct]
  | str s => exact ⟨'"', _, rfl, by decide, by decide⟩
  | arr es => exact ⟨'[', _, rfl, by decide, by decide⟩
  | obj ms => exact ⟨'\x7b', _, rfl, by decide, by decide⟩

theorem stringify_length_pos (v : Json) : 0 < (stringify v).length := by
  obtain ⟨c, t, h, _, _⟩ := stringify_cons v
  simp [h]

/-! ### The JSON codec round-trip, values -/

theorem stringifyElems_cons (v : Json) (tl : List Json) :
    stringifyElems (v :: tl) = stringify v ++ stringifySep tl := rfl

theorem stringifySep_cons (v : Json) (tl : List Json) :
    stringifySep (v :: tl) = ',' :: stringifyElems (v :: tl) := rfl

theorem stringifyMembers_cons (m : Str × Json) (tl : List (Str × Json)) :
    stringifyMembers (m :: tl) = strLit m.1 ++ ':' :: (stringify m.2 ++ stringifyMemberSep tl) := rfl

theorem stringifyMemberSep_cons (m : Str × Json) (tl : List (Str × Json)) :
    stringifyMemberSep (m :: tl) = ',' :: stringifyMembers (m :: tl) := rfl

theorem parseVal_quote (fuel : Nat) (t : Str) :
    parseVal (fuel + 1) ('"' :: t) = (parseStr t).map (fun r => (Json.str r.1, r.2)) := by
  rw [parseVal.eq_def]
  simp

theorem parseVal_lbracket (fuel : Nat) (t : Str) :
    parseVal (fuel + 1) ('[' :: t)
      = if t.head? = some ']' then some (.arr [], t.tail)
        else (parseElems fuel t).map (fun r => (Json.arr r.1, r.2)) := by
  rw [parseVal.eq_def]
  simp

theorem parseVal_lbrace (fuel : Nat) (t : Str) :
    parseVal (fuel + 1) ('\x7b' :: t)
      = if t.head? = some '\x7d' then some (.obj [], t.tail)
        else (parseMembers fuel t).map (fun r => (Json.obj r.1, r.2)) := by
  rw [parseVal.eq_def]
  simp

theorem parseVal_default (fuel : Nat) (c : Char) (t : Str)
    (h1 : c ≠ 'n') (h2 : c ≠ 't') (h3 : c ≠ 'f') (h4 : c ≠ '"')
    (h5 : c ≠ '[') (h6 : c ≠ '\x7b') :
    parseVal (fuel + 1) (c :: t) = parseNum (c :: t) := by
  rw [parseVal.eq_def]
  simp [h1, h2, h3, h4, h5, h6]

theorem parseElems_step (fuel : Nat) (cs : Str) :
    parseElems (fuel + 1) cs = (parseVal fuel cs).bind (fun vr =>
      if vr.2.head? = some ',' then
        (parseElems fuel vr.2.tail).map (fun r => (vr.1 :: r.1, r.2))
      else if vr.2.head? = some ']' then some ([vr.1], vr.2.tail)
      else none) := rfl

theorem parseMembers_step (fuel : Nat) (cs : Str) :
    parseMembers (fuel + 1) cs = (if cs.head? = some '"' then
      (parseStr cs.tail).bind (fun kr =>
        if kr.2.head? = some ':' then
          (parseVal fuel kr.2.tail).bind (fun vr =>
            if vr.2.head? = some ',' then
              (parseMembers fuel vr.2.tail).map (fun r => ((kr.1, vr.1) :: r.1, r.2))
            else if vr.2.head? = some '\x7d' then some ([(kr.1, vr.1)], vr.2.tail)
            else none)
        else none)
    else none) := rfl

mutual

theorem rtVal : ∀ (v : Json) (fuel : Nat) (rest : Str),
    (stringify v).length < fuel → noDigitHead rest →
    parseVal fuel (stringify v ++ rest) = some (v, rest)
  | v, 0, _, hf, _ => absurd hf (by have := stringify_length_pos v; omega)
  | .null, fuel + 1, rest, _, _ => by
    show parseVal (fuel + 1) ('n' :: 'u' :: 'l' :: 'l' :: rest) = some (.null, rest)
    rw [parseVal.eq_def]
    simp
  | .bool true, fuel + 1, rest, _, _ => by
    show parseVal (fuel + 1) ('t' :: 'r' :: 'u' :: 'e' :: rest) = some (.bool true, rest)
    rw [parseVal.eq_def]
    simp
  | .bool false, fuel + 1, rest, _, _ => by
    show parseVal (fuel + 1) ('f' :: 'a' :: 'l' :: 's' :: 'e' :: rest)
        = some (.bool false, rest)
    rw [parseVal.eq_def]
    simp
  | .num n, fuel + 1, rest, _, hrest => by
    have hsh : ∃ c t, intToChars n = c :: t ∧ c ≠ 'n' ∧ c ≠ 't' ∧ c ≠ 'f' ∧ c ≠ '"'
        ∧ c ≠ '[' ∧ c ≠ '\x7b' := by
      by_cases hneg : n < 0
      · exact ⟨'-', _, by rw [intToChars, if_pos hneg], by decide, by decide, by decide,
          by decide, by decide, by decide⟩
      · obtain ⟨c, t, hct, hc⟩ := natToDigits_cons n.natAbs
        exact ⟨c, t, by rw [intToChars, if_neg hneg, hct],
          isDig_ne hc 'n' (by right; decide), isDig_ne hc 't' (by right; decide),
          isDig_ne hc 'f' (by right; decide), isDig_ne hc '"' (by left; decide),
          isDig_ne hc '[' (by right; decide), isDig_ne hc '\x7b' (by right; decide)⟩
    obtain ⟨c, t, hct, hn1, hn2, hn3, hn4, hn5, hn6⟩ := hsh
    show parseVal (fuel + 1) (intToChars n ++ rest) = some (.num n, rest)
    rw [hct, List.cons_append, parseVal_default fuel c _ hn1 hn2 hn3 hn4 hn5 hn6,
      ← List.cons_append, ← hct, parseNum_intToChars n hrest]
  | .str s, fuel + 1, rest, _, _ => by
    show parseVal (fuel + 1) ('"' :: ((escRun s ++ ['"']) ++ rest)) = some (.str s, rest)
    rw [parseVal_quote,
      show (escRun s ++ ['"']) ++ rest = escRun s ++ '"' :: rest from by simp,
      parseStr_escRun]
    rfl
  | .arr [], fuel + 1, rest, _, _ => by
    show parseVal (fuel + 1) ('[' :: ((stringifyElems [] ++ [']']) ++ rest))
        = some (.arr [], rest)
    rw [show (stringifyElems [] ++ [']']) ++ rest = ']' :: rest from by
      show (([] : Str) ++ [']']) ++ rest = _
      simp]
    rw [parseVal_lbracket]
    simp
  | .arr (e :: es), fuel + 1, rest, hf, hrest => by
    obtain ⟨c0, t0, hc0, hne1, _⟩ := stringify_cons e
    have harg : stringify (Json.arr (e :: es)) ++ rest
        = '[' :: (stringifyElems (e :: es) ++ ']' :: rest) := by
      show ('[' :: (stringifyElems (e :: es) ++ [']'])) ++ rest = _
      simp
    have hhead : (stringifyElems (e :: es) ++ ']' :: rest).head? = some c0 := by
      rw [stringifyElems_cons, hc0]
      rfl
    have hfe : (stringifyElems (e :: es)).length + 1 < fuel := by
      have hlen : (stringify (Json.arr (e :: es))).length
          = (stringifyElems (e :: es)).length + 2 := by
        show ('[' :: (stringifyElems (e :: es) ++ [']'])).length = _
        simp
      omega
    rw [harg, parseVal_lbracket, if_neg (by rw [hhead]; simp [hne1]),
      rtElems e es fuel rest hfe hrest]
    rfl
  | .obj [], fuel + 1, rest, _, _ => by
    show parseVal (fuel + 1) ('\x7b' :: ((stringifyMembers [] ++ ['\x7d']) ++ rest))
        = some (.obj [], rest)
    rw [show (stringifyMembers [] ++ ['\x7d']) ++ rest = '\x7d' :: rest from by
      show (([] : Str) ++ ['\x7d']) ++ rest = _
      simp]
    rw [parseVal_lbrace]
    simp
  | .obj (m :: ms), fuel + 1, rest, hf, hrest => by
    have harg : stringify (Json.obj (m :: ms)) ++ rest
        = '\x7b' :: (stringifyMembers (m :: ms) ++ '\x7d' :: rest) := by
      show ('\x7b' :: (stringifyMembers (m :: ms) ++ ['\x7d'])) ++ rest = _
      simp
    have hhead : (stringifyMembers (m :: ms) ++ '\x7d' :: rest).head? = some '"' := by
      rw [stringifyMembers_cons]
      rfl
    have hfm : (stringifyMembers (m :: ms)).length + 1 < fuel := by
      have hlen : (stringify (Json.obj (m :: ms))).length
          = (stringifyMembers (m :: ms)).length + 2 := by
        show ('\x7b' :: (stringifyMembers (m :: ms) ++ ['\x7d'])).length = _
        simp
      omega
    rw [harg, parseVal_lbrace, if_neg (by rw [hhead]; simp),
      rtMembers m ms fuel rest hfm hrest]
    rfl
  termination_by v _ _ _ _ => sizeOf v

theorem rtElems : ∀ (e : Json) (es : List Json) (fuel : Nat) (rest : Str),
    (stringifyElems (e :: es)).length + 1 < fuel → noDigitHead rest →
    parseElems fuel (stringifyElems (e :: es) ++ ']' :: rest) = some (e :: es, rest)
  | _, _, 0, _, hf, _ => absurd hf (by omega)
  | e, [], fuel + 1, rest, hf, hrest => by
    have hone : stringifyElems [e] = stringify e := by
      rw [stringifyElems_cons]
      show stringify e ++ [] = stringify e
      simp
    have hfe : (stringify e).length < fuel := by
      rw [hone] at hf
      omega
    rw [hone, parseElems_step fuel,
      rtVal e fuel (']' :: rest) hfe (noDigitHead_cons (by decide) rest)]
    simp
  | e, x :: xs, fuel + 1, rest, hf, hrest => by
    have hsplit : stringifyElems (e :: x :: xs) ++ ']' :: rest
        = stringify e ++ ',' :: (stringifyElems (x :: xs) ++ ']' :: rest) := by
      rw [stringifyElems_cons, stringifySep_cons]
      simp
    have hlen : (stringifyElems (e :: x :: xs)).length
        = (stringify e).length + 1 + (stringifyElems (x :: xs)).length := by
      rw [stringifyElems_cons e (x :: xs), stringifySep_cons]
      simp
      omega
    have hfe : (stringify e).length < fuel := by omega
    have hfx : (stringifyElems (x :: xs)).length + 1 < fuel := by
      have := stringify_length_pos e
      omega
    rw [hsplit, parseElems_step fuel,
      rtVal e fuel (',' :: (stringifyElems (x :: xs) ++ ']' :: rest)) hfe
        (noDigitHead_cons (by decide) _)]
    simp [rtElems x xs fuel rest hfx hrest]
  termination_by e es _ _ _ _ => sizeOf e + sizeOf es

theorem rtMembers : ∀ (m : Str × Json) (ms : List (Str × Json)) (fuel : Nat) (rest : Str),
    (stringifyMembers (m :: ms)).length + 1 < fuel → noDigitHead rest →
    parseMembers fuel (stringifyMembers (m :: ms) ++ '\x7d' :: rest) = some (m :: ms, rest)
  | _, _, 0, _, hf, _ => absurd hf (by omega)
  | (k, v), [], fuel + 1, rest, hf, hrest => by
    have harg : stringifyMembers [(k, v)] ++ '\x7d' :: rest
        = '"' :: (escRun k ++ '"' :: (':' :: (stringify v ++ '\x7d' :: rest))) := by
      rw [stringifyMembers_cons]
      show (('"' :: (escRun k ++ ['"'])) ++ ':' :: (stringify v ++ [])) ++ '\x7d' :: rest = _
      simp
    have hlen : (stringifyMembers [(k, v)]).length
        = (escRun k).length + 3 + (stringify v).length := by
      rw [stringifyMembers_cons]
      show (('"' :: (escRun k ++ ['"'])) ++ ':' :: (stringify v ++ [])).length = _
      simp
      omega
    have hfv : (stringify v).length < fuel := by omega
    rw [harg, parseMembers_step fuel]
    simp [parseStr_escRun,
      rtVal v fuel ('\x7d' :: rest) hfv (noDigitHead_cons (by decide) rest)]
  | (k, v), m2 :: ms2, fuel + 1, rest, hf, hrest => by
    have harg : stringifyMembers ((k, v) :: m2 :: ms2) ++ '\x7d' :: rest
        = '"' :: (escRun k ++ '"' :: (':' :: (stringify v
            ++ ',' :: (stringifyMembers (m2 :: ms2) ++ '\x7d' :: rest)))) := by
      rw [stringifyMembers_cons, stringifyMemberSep_cons]
      show (('"' :: (escRun k ++ ['"']))
          ++ ':' :: (stringify v ++ ',' :: stringifyMembers (m2 :: ms2))) ++ '\x7d' :: rest = _
      simp
    have hlen : (stringifyMembers ((k, v) :: m2 :: ms2)).length
        = (escRun k).length + 3 + (stringify v).length + 1
          + (stringifyMembers (m2 :: ms2)).length := by
      rw [stringifyMembers_cons, stringifyMemberSep_cons]
      show (('"' :: (escRun k ++ ['"']))
          ++ ':' :: (stringify v ++ ',' :: stringifyMembers (m2 :: ms2))).length = _
      simp
      omega
    have hfv : (stringify v).length < fuel := by omega
    have hfm2 : (stringifyMembers (m2 :: ms2)).length + 1 < fuel := by omega
    rw [harg, parseMembers_step fuel]
    simp [parseStr_escRun,
      rtVal v fuel (',' :: (stringifyMembers (m2 :: ms2) ++ '\x7d' :: rest)) hfv
        (noDigitHead_cons (by decide) _),
      rtMembers m2 ms2 fuel rest hfm2 hrest]
  termination_by m ms _ _ _ _ => sizeOf m + sizeOf ms

end

theorem jsonParse_stringify (v : Json) : jsonParse (stringify v) = some v := by
  rw [jsonParse]
  have h := rtVal v ((stringify v).length + 1) [] (by omega) noDigitHead_nil
  rw [List.append_nil] at h
  rw [h]
  rfl

/-- Claim C9: for every JSON-serializable value `v` (over the modelled
value space), any key and TTL, `getJson` read before the entry expires
after `setJson(K, v, ttl)` returns a value deep-equal (structurally equal)
to `v`, and the store is untouched by the read. -/
theorem claim9_roundtrip (v : Json) (key : Str) (ttl : Option Int) (now now2 : Int)
    (s : Store)
    (hlive : isExpired now2 key (setJson now key (some v) ttl s).2 = false) :
    getJson now2 key (setJson now key (some v) ttl s).2
      = (.ok v, (setJson now key (some v) ttl s).2) := by
  have hstored : storeGet key (setJson now key (some v) ttl s).2
      = some (stringify v) := storeGet_setItem_self now key (stringify v) ttl s
  have hget : getItem now2 key (setJson now key (some v) ttl s).2
      = (some (stringify v), (setJson now key (some v) ttl s).2) := by
    rw [getItem, if_neg (by simp [hlive]), hstored]
  rw [getJson, hget]
  simp [jsonParse_stringify v]

/-- Claim C9 witness: the round-trip at a compound value holding a nested
array, a negative number, an escaped quote in a string, a boolean and a
null, written with TTL 10 at time 0 and read back at time 3. -/
theorem claim9_witness :
    getJson 3 kDemo (setJson 0 kDemo (some vJson) (some 10) []).2
      = (.ok vJson, (setJson 0 kDemo (some vJson) (some 10) []).2) :=
  claim9_roundtrip vJson kDemo (some 10) 0 3 [] (by decide)

end ExpiredStorage
